import Mathlib

/-!
# Verification of the agent-coder event-synchronization core

Shallow embedding of the client-side live execution event stream
synchronization layer of the `agent-coder` repository:

* the Zustand resource store (`app/lib/callStore.ts`): state shape,
  `addEvent`, `setCallEvents`, `updateCall`, `subscribeToCall`,
  `unsubscribeFromCall`, `clearCall`, and the remaining metadata actions;
* the WebSocket push-to-pull adapter
  (`app/lib/agentClient.ts`, `AgentClient.subscribeToCall`): message queues,
  pending resolvers, the `closed` flag, the `close()` handle, and the two
  pull iterators;
* the view-lifecycle driver (`ExecutionView`'s `useEffect`), which
  subscribes while a call is `pending`/`running` and unsubscribes on
  unmount or when the status leaves that set.

Modelling conventions:

* JS string ids stay `String`; timestamps are modelled by their parsed
  millisecond value (`new Date(s).getTime()`) as `Int`.
* JS objects used as string-keyed records (`{...m, [k]: v}` /
  `const {[k]: _, ...rest} = m`) are modelled as association lists with
  JS-object semantics: a reachable record never has duplicate keys, an
  update replaces the value in place keeping key order, deletion removes
  that key and keeps the rest.
* `Array.prototype.sort` with comparator
  `(a, b) => ta - tb` is a stable sort ascending by timestamp (guaranteed
  stable by the ECMAScript spec); it is modelled by the stable
  `List.insertionSort` with the relation `a.timestamp ≤ b.timestamp`.
* The single-threaded cooperative event loop is modelled by a small-step
  transition relation over the per-subscription subsystem (store +
  socket + the two consumption tasks); every store mutation is one
  atomic function application.
-/

/-- Call status enum from `agentClient.ts` (`CallStatus`). -/
inductive CallStatus where
  | pending
  | running
  | completed
  | failed
  | cancelled
deriving DecidableEq, Repr

/-- The terminal-status test used by `subscribeToCall`'s guard:
`call.status === 'completed' || call.status === 'failed' || call.status === 'cancelled'`. -/
def isTerminalStatus (s : CallStatus) : Bool :=
  s = CallStatus.completed || s = CallStatus.failed || s = CallStatus.cancelled

/-- `Agent` from `agentClient.ts`. Schemas are opaque documents, modelled
by an opaque `Nat` code. -/
structure Agent where
  name : String
  description : String
  mode : String
  max_iterations : Nat
  verbose : Bool
  tools : List String
  workflow_id : Option String
  input_schema : Nat
  output_schema : Nat
deriving DecidableEq, Repr

/-- `CallSummary` from `agentClient.ts`. Opaque payload fields
(`input_data`, `metadata`) are modelled by an opaque `Nat` code. -/
structure CallSummary where
  id : String
  agent_name : String
  input_data : Nat
  status : CallStatus
  created_at : Int
  started_at : Option Int
  completed_at : Option Int
  metadata : Option Nat
  total_thoughts : Nat
  total_actions : Nat
  execution_time_ms : Option Nat
deriving DecidableEq, Repr

/-- `CallEvent` from `agentClient.ts`. The TS type is a structural union
(`CallThought | CallAction | CallResult | CallError | CallStatusChange`)
discriminated by field presence, so it is modelled as one record whose
variant-specific fields are optional; a field is "present" exactly when it
is `some`. Opaque payloads (`parameters`, `result`, `error_details`) are
modelled by opaque `Nat` codes. -/
structure CallEvent where
  id : String
  call_id : String
  timestamp : Int
  sequence : Option Nat
  reasoning : Option String
  tool_name : Option String
  result : Option Nat
  success : Option Bool
  error_type : Option String
  error_message : Option String
  old_status : Option CallStatus
  new_status : Option CallStatus
deriving DecidableEq, Repr

/-- `getEventType` from `agentClient.ts`: structural dispatch, in source
order (`isCallThought`, `isCallAction`, `isCallResult`, `isCallError`,
`isCallStatusChange`). -/
def getEventType (e : CallEvent) : String :=
  if e.reasoning.isSome then "thought"
  else if e.tool_name.isSome then "action"
  else if e.result.isSome && e.success.isSome then "result"
  else if e.error_type.isSome && e.error_message.isSome then "error"
  else if e.old_status.isSome && e.new_status.isSome then "status_change"
  else "unknown"

/-- `WSError` from `agentClient.ts`. -/
structure WSError where
  error_type : String
  error_message : String
  call_id : Option String
deriving DecidableEq, Repr

/-- `ResourceMetadata` from `callStore.ts`. -/
structure ResourceMetadata where
  loading : Bool
  error : Option String
  notFound : Bool
  lastFetch : Option Int
deriving DecidableEq, Repr

/-- `CallSubscription` from `callStore.ts`: `{callId, close}`. The `close`
callback is opaque from the store's point of view; it is modelled by an
opaque handle. -/
structure CallSubscription where
  callId : String
  handle : Nat
deriving DecidableEq, Repr

/-- A JS object used as a string-keyed record, as an association list.
Reachable records have no duplicate keys. -/
abbrev Rmap (β : Type) := List (String × β)

/-- Record lookup `m[k]` (as an `Option`; JS yields `undefined` when the
key is absent). -/
def rlookup {β : Type} (m : Rmap β) (k : String) : Option β :=
  (m.find? (fun p => p.1 = k)).map (fun p => p.2)

/-- Record update `{...m, [k]: v}`: replaces the value at `k` in place
(keeping key order) when present, appends the key otherwise. -/
def rinsert {β : Type} : Rmap β → String → β → Rmap β
  | [], k, v => [(k, v)]
  | p :: rest, k, v => if p.1 = k then (k, v) :: rest else p :: rinsert rest k v

/-- Record deletion `const {[k]: removed, ...rest} = m`. -/
def rerase {β : Type} (m : Rmap β) (k : String) : Rmap β :=
  m.filter (fun p => p.1 ≠ k)

/-- `Map.prototype.set` on a map of events keyed by `id` (represented as
the list of values in key-insertion order): replaces the value at an
existing key in place, appends otherwise. -/
def setById : List CallEvent → CallEvent → List CallEvent
  | [], e => [e]
  | x :: rest, e => if x.id = e.id then e :: rest else x :: setById rest e

/-- `new Map(es.map(e => [e.id, e]))`: builds the id-keyed map by
iterating `Map.set`; a later duplicate id overwrites the earlier value at
its original position. -/
def mapFromEvents (es : List CallEvent) : List CallEvent :=
  es.foldl setById []

/-- The sort relation of the comparator
`(a, b) => new Date(a.timestamp).getTime() - new Date(b.timestamp).getTime()`. -/
def tsLe (a b : CallEvent) : Prop := a.timestamp ≤ b.timestamp

instance : DecidableRel tsLe := fun a b => Int.decLe a.timestamp b.timestamp

instance : IsTotal CallEvent tsLe := ⟨fun a b => Int.le_total a.timestamp b.timestamp⟩

instance : IsTrans CallEvent tsLe := ⟨fun _ _ _ h1 h2 => Int.le_trans h1 h2⟩

/-- `arr.sort((a, b) => ta - tb)`: stable sort ascending by timestamp. -/
def sortByTs (es : List CallEvent) : List CallEvent :=
  List.insertionSort tsLe es

/-- The per-call list update performed by `addEvent`: rebuild the id-keyed
map from the existing list, upsert the new event by id, and re-sort
chronologically. -/
def insertEvent (existing : List CallEvent) (e : CallEvent) : List CallEvent :=
  sortByTs (setById (mapFromEvents existing) e)

/-- The per-call list update performed by `setCallEvents`: rebuild the
id-keyed map from the existing list, upsert every fetched event by id in
order, and re-sort chronologically. -/
def mergeEvents (existing : List CallEvent) (incoming : List CallEvent) : List CallEvent :=
  sortByTs (incoming.foldl setById (mapFromEvents existing))

/-- The store state of `useCallStore` (`CallStore` in `callStore.ts`). -/
structure CallStore where
  agents : Rmap Agent
  agentsMeta : Rmap ResourceMetadata
  calls : Rmap CallSummary
  callsMeta : Rmap ResourceMetadata
  events : Rmap (List CallEvent)
  eventsMeta : Rmap ResourceMetadata
  subscriptions : Rmap CallSubscription
deriving DecidableEq, Repr

/-- The initial store state: every collection empty. -/
def initialStore : CallStore :=
  ⟨[], [], [], [], [], [], []⟩

/-- Fresh successfully-loaded metadata
`{loading: false, error: null, notFound: false, lastFetch: new Date()}`;
`now` is the current time. -/
def freshMeta (now : Int) : ResourceMetadata :=
  ⟨false, none, false, some now⟩

/-- `setAgents(agents)`: replaces the agent collection wholesale and marks
each included agent's metadata as loaded (a `reduce` starting from the
existing `agentsMeta`). -/
def setAgents (st : CallStore) (agents : Rmap Agent) (now : Int) : CallStore :=
  { st with
    agents := agents
    agentsMeta := (agents.map Prod.fst).foldl (fun acc n => rinsert acc n (freshMeta now)) st.agentsMeta }

/-- `setAgentError(agentName, error, notFound)`. -/
def setAgentError (st : CallStore) (agentName : String) (err : String) (notFound : Bool)
    (now : Int) : CallStore :=
  { st with agentsMeta := rinsert st.agentsMeta agentName ⟨false, some err, notFound, some now⟩ }

/-- `updateCall(call)`: upserts the summary keyed by `call.id` and marks
its metadata loaded. -/
def updateCall (st : CallStore) (call : CallSummary) (now : Int) : CallStore :=
  { st with
    calls := rinsert st.calls call.id call
    callsMeta := rinsert st.callsMeta call.id (freshMeta now) }

/-- `setCallError(callId, error, notFound)`. -/
def setCallError (st : CallStore) (callId : String) (err : String) (notFound : Bool)
    (now : Int) : CallStore :=
  { st with callsMeta := rinsert st.callsMeta callId ⟨false, some err, notFound, some now⟩ }

/-- `setCallLoading(callId, loading)`: keeps the previous `lastFetch`
while loading, stamps the current time when loading ends. -/
def setCallLoading (st : CallStore) (callId : String) (loading : Bool) (now : Int) : CallStore :=
  let prev := rlookup st.callsMeta callId
  { st with
    callsMeta := rinsert st.callsMeta callId
      ⟨loading, (prev.map ResourceMetadata.error).getD none,
        ((prev.map ResourceMetadata.notFound).getD false),
        if loading then (prev.map ResourceMetadata.lastFetch).getD none
        else some now⟩ }

/-- `addEvent(event)`: upsert-by-id into the owning call's list, then
re-sort chronologically. Touches only the `events` field. -/
def addEvent (st : CallStore) (e : CallEvent) : CallStore :=
  let existing := (rlookup st.events e.call_id).getD []
  { st with events := rinsert st.events e.call_id (insertEvent existing e) }

/-- `setCallEvents(callId, events)`: bulk-merges a fetched snapshot into
the existing list with the same upsert-by-id + re-sort rule, and marks the
events metadata loaded. -/
def setCallEvents (st : CallStore) (callId : String) (events : List CallEvent)
    (now : Int) : CallStore :=
  let existing := (rlookup st.events callId).getD []
  { st with
    events := rinsert st.events callId (mergeEvents existing events)
    eventsMeta := rinsert st.eventsMeta callId (freshMeta now) }

/-- `setEventsError(callId, error, notFound)`. -/
def setEventsError (st : CallStore) (callId : String) (err : String) (notFound : Bool)
    (now : Int) : CallStore :=
  { st with eventsMeta := rinsert st.eventsMeta callId ⟨false, some err, notFound, some now⟩ }

/-- `setEventsLoading(callId, loading)`. -/
def setEventsLoading (st : CallStore) (callId : String) (loading : Bool) (now : Int) : CallStore :=
  let prev := rlookup st.eventsMeta callId
  { st with
    eventsMeta := rinsert st.eventsMeta callId
      ⟨loading, (prev.map ResourceMetadata.error).getD none,
        ((prev.map ResourceMetadata.notFound).getD false),
        if loading then (prev.map ResourceMetadata.lastFetch).getD none
        else some now⟩ }

/-- The store-state effect of `subscribeToCall(callId)`: no-op when a
subscription for the id already exists, or when the cached summary is in a
terminal status; otherwise records the handle `{callId, close}` of the
newly opened subscription. -/
def subscribeToCall (st : CallStore) (callId : String) (handle : Nat) : CallStore :=
  if (rlookup st.subscriptions callId).isSome then st
  else
    match rlookup st.calls callId with
    | some call =>
        if isTerminalStatus call.status then st
        else { st with subscriptions := rinsert st.subscriptions callId ⟨callId, handle⟩ }
    | none => { st with subscriptions := rinsert st.subscriptions callId ⟨callId, handle⟩ }

/-- The store-state effect of `unsubscribeFromCall(callId)`: removes the
handle when present (its `close()` side effect lives in the system model),
no-op otherwise. -/
def unsubscribeFromCall (st : CallStore) (callId : String) : CallStore :=
  match rlookup st.subscriptions callId with
  | some _ => { st with subscriptions := rerase st.subscriptions callId }
  | none => st

/-- The store-state effect of `clearCall(callId)`: removes the call
summary, call metadata, events, events metadata and subscription entries
for the id in one state update (the handle's `close()` side effect lives
in the system model). -/
def clearCall (st : CallStore) (callId : String) : CallStore :=
  { st with
    calls := rerase st.calls callId
    callsMeta := rerase st.callsMeta callId
    events := rerase st.events callId
    eventsMeta := rerase st.eventsMeta callId
    subscriptions := rerase st.subscriptions callId }

/-- `getCallEvents(callId)`: `state.events[callId] || []`. -/
def getCallEvents (st : CallStore) (callId : String) : List CallEvent :=
  (rlookup st.events callId).getD []

/-- `getActiveSubscriptions()`: `Object.keys(state.subscriptions)`. -/
def getActiveSubscriptions (st : CallStore) : List String :=
  st.subscriptions.map Prod.fst

/-- One store action, for stating invariants over every reachable store
state (each constructor is one action of `callStore.ts`, with the wall
clock an explicit argument where the source calls `new Date()`). -/
inductive Act where
  | setAgents (agents : Rmap Agent) (now : Int)
  | setAgentError (agentName : String) (err : String) (notFound : Bool) (now : Int)
  | updateCall (call : CallSummary) (now : Int)
  | setCallError (callId : String) (err : String) (notFound : Bool) (now : Int)
  | setCallLoading (callId : String) (loading : Bool) (now : Int)
  | addEvent (e : CallEvent)
  | setCallEvents (callId : String) (events : List CallEvent) (now : Int)
  | setEventsError (callId : String) (err : String) (notFound : Bool) (now : Int)
  | setEventsLoading (callId : String) (loading : Bool) (now : Int)
  | subscribeToCall (callId : String) (handle : Nat)
  | unsubscribeFromCall (callId : String)
  | clearCall (callId : String)

/-- Apply one store action. -/
def applyAct (st : CallStore) : Act → CallStore
  | Act.setAgents agents now => setAgents st agents now
  | Act.setAgentError n err nf now => setAgentError st n err nf now
  | Act.updateCall call now => updateCall st call now
  | Act.setCallError c err nf now => setCallError st c err nf now
  | Act.setCallLoading c l now => setCallLoading st c l now
  | Act.addEvent e => addEvent st e
  | Act.setCallEvents c es now => setCallEvents st c es now
  | Act.setEventsError c err nf now => setEventsError st c err nf now
  | Act.setEventsLoading c l now => setEventsLoading st c l now
  | Act.subscribeToCall c h => subscribeToCall st c h
  | Act.unsubscribeFromCall c => unsubscribeFromCall st c
  | Act.clearCall c => clearCall st c

/-- Find the (first) stored event with a given id. -/
def findById (es : List CallEvent) (i : String) : Option CallEvent :=
  es.find? (fun e => e.id = i)

/-- A list of events has no duplicate ids. -/
def NodupIds (es : List CallEvent) : Prop :=
  (es.map CallEvent.id).Nodup

/-- `WebSocket.readyState` values (`CONNECTING`, `OPEN`, `CLOSING`,
`CLOSED`). -/
inductive ReadyState where
  | CONNECTING
  | OPEN
  | CLOSING
  | CLOSED
deriving DecidableEq, Repr

/-- The mutable local state of one `AgentClient.subscribeToCall` wrapper:
the socket's ready state, the `closed` flag, the two message queues and
the two pending-resolver lists (only their length is observable, since
every pending resolver is resolved with the same next item or
end-of-sequence signal). -/
structure WsConn where
  readyState : ReadyState
  closedFlag : Bool
  eventQueue : List CallEvent
  errorQueue : List WSError
  eventResolvers : Nat
  errorResolvers : Nat
deriving DecidableEq, Repr

/-- Outcome of one `next()` call on a pull iterator: an item, the
end-of-sequence signal `{done: true}`, or a pending promise (a resolver
was enqueued; the caller suspends). -/
inductive NextRes (α : Type) where
  | yield (a : α)
  | done
  | pending
deriving DecidableEq, Repr

/-- `eventIterator.next()`: drain the buffer first, then signal
end-of-sequence when the socket has closed, otherwise enqueue a resolver
and suspend. -/
def eventNext (w : WsConn) : NextRes CallEvent × WsConn :=
  match w.eventQueue with
  | e :: rest => (NextRes.yield e, { w with eventQueue := rest })
  | [] =>
      if w.closedFlag then (NextRes.done, w)
      else (NextRes.pending, { w with eventResolvers := w.eventResolvers + 1 })

/-- `errorIterator.next()`: same shape as `eventNext`. -/
def errorNext (w : WsConn) : NextRes WSError × WsConn :=
  match w.errorQueue with
  | e :: rest => (NextRes.yield e, { w with errorQueue := rest })
  | [] =>
      if w.closedFlag then (NextRes.done, w)
      else (NextRes.pending, { w with errorResolvers := w.errorResolvers + 1 })

/-- `ws.onmessage` with an `{type: "event"}` envelope: resolve a waiting
consumer directly when one is pending, otherwise buffer the event. The
second component is the item handed directly to a waiting consumer, if
any. -/
def onEventMessage (w : WsConn) (e : CallEvent) : WsConn × Option CallEvent :=
  if w.eventResolvers > 0 then ({ w with eventResolvers := w.eventResolvers - 1 }, some e)
  else ({ w with eventQueue := w.eventQueue ++ [e] }, none)

/-- `ws.onmessage` with an `{type: "error"}` envelope. -/
def onErrorMessage (w : WsConn) (err : WSError) : WsConn × Option WSError :=
  if w.errorResolvers > 0 then ({ w with errorResolvers := w.errorResolvers - 1 }, some err)
  else ({ w with errorQueue := w.errorQueue ++ [err] }, none)

/-- `ws.onclose` (together with the platform's transition of `readyState`
to `CLOSED`): set the `closed` flag and resolve every pending resolver
with the end-of-sequence signal. -/
def onClose (w : WsConn) : WsConn :=
  { w with
    readyState := ReadyState.CLOSED
    closedFlag := true
    eventResolvers := 0
    errorResolvers := 0 }

/-- The `close()` handle returned by `subscribeToCall`:
`if (ws.readyState === WebSocket.OPEN) ws.close()`. `ws.close()` moves the
socket to `CLOSING`; in every other ready state the call does nothing. -/
def closeWs (w : WsConn) : WsConn :=
  if w.readyState = ReadyState.OPEN then { w with readyState := ReadyState.CLOSING } else w

/-- The platform's `open` event: the connection attempt completes and the
socket becomes `OPEN`. -/
def wsOnOpen (w : WsConn) : WsConn :=
  { w with readyState := ReadyState.OPEN }

/-- The state of the `n`-th `eventIterator.next()` call in a row
(0-indexed). -/
def iterEvNext (w : WsConn) : Nat → NextRes CallEvent × WsConn
  | 0 => eventNext w
  | n + 1 => eventNext (iterEvNext w n).2

/-- The state of the `n`-th `errorIterator.next()` call in a row. -/
def iterErrNext (w : WsConn) : Nat → NextRes WSError × WsConn
  | 0 => errorNext w
  | n + 1 => errorNext (iterErrNext w n).2

/-- The body of the events consumption loop in the store's
`subscribeToCall`, run once per consumed event: `addEvent`, then, for a
structurally detected StatusChange carrying a `new_status`, merge the new
status into the cached summary for the subscription's call id when one is
cached. -/
def consumeBody (st : CallStore) (callId : String) (now : Int) (e : CallEvent) : CallStore :=
  let st1 := addEvent st e
  if getEventType e = "status_change" then
    match e.new_status with
    | some ns =>
        match rlookup st1.calls callId with
        | some currentCall => updateCall st1 { currentCall with status := ns } now
        | none => st1
    | none => st1
  else st1

/-- State of one consumption loop task: about to call `next()`, suspended
on a pending promise, or exited. -/
inductive TaskSt where
  | idle
  | waiting
  | done
deriving DecidableEq, Repr

/-- The per-subscription subsystem: the store, the wrapper state of this
subscription's socket, and the two consumption loop tasks. Store actions
of other provenance (snapshot fetches, other calls' subscriptions) are
outside this subsystem. -/
structure SubSys where
  store : CallStore
  conn : WsConn
  evTask : TaskSt
  errTask : TaskSt
deriving DecidableEq, Repr

/-- A task suspended on a pending resolver receives the end-of-sequence
signal when the socket closes, and then exits. -/
def resolveTask : TaskSt → TaskSt
  | TaskSt.waiting => TaskSt.done
  | t => t

/-- The whole-subsystem effect of the socket's close event. -/
def sockClosedSys (s : SubSys) : SubSys :=
  { s with
    conn := onClose s.conn
    evTask := resolveTask s.evTask
    errTask := resolveTask s.errTask }

/-- The whole-subsystem effect of `unsubscribeFromCall(C)` (as run by the
`ExecutionView` effect cleanup, on unmount or when the cached status
leaves `pending`/`running`): when a handle is stored, call its `close()`
and drop it; otherwise do nothing. -/
def unsubscribeSys (C : String) (s : SubSys) : SubSys :=
  match rlookup s.store.subscriptions C with
  | some _ => { s with store := unsubscribeFromCall s.store C, conn := closeWs s.conn }
  | none => s

/-- Small-step semantics of the per-subscription subsystem for the
subscription of call id `C`: the single-threaded event loop
interleaves socket callbacks, the two consumption loops and the view
driver in run-to-completion steps. When a message is handed directly to a
waiting consumer, the consumer's loop body runs before that consumer
polls again, so delivery and body are one step. -/
inductive Step (C : String) : SubSys → SubSys → Prop where
  | evConsume (s : SubSys) (e : CallEvent) (w : WsConn) (now : Int) :
      s.evTask = TaskSt.idle →
      eventNext s.conn = (NextRes.yield e, w) →
      Step C s { s with store := consumeBody s.store C now e, conn := w }
  | evDone (s : SubSys) (w : WsConn) :
      s.evTask = TaskSt.idle →
      eventNext s.conn = (NextRes.done, w) →
      Step C s { s with conn := w, evTask := TaskSt.done }
  | evWait (s : SubSys) (w : WsConn) :
      s.evTask = TaskSt.idle →
      eventNext s.conn = (NextRes.pending, w) →
      Step C s { s with conn := w, evTask := TaskSt.waiting }
  | evDeliver (s : SubSys) (e : CallEvent) (w : WsConn) (now : Int) :
      s.conn.readyState = ReadyState.OPEN →
      s.evTask = TaskSt.waiting →
      onEventMessage s.conn e = (w, some e) →
      Step C s { s with store := consumeBody s.store C now e, conn := w, evTask := TaskSt.idle }
  | evEnqueue (s : SubSys) (e : CallEvent) (w : WsConn) :
      s.conn.readyState = ReadyState.OPEN →
      onEventMessage s.conn e = (w, none) →
      Step C s { s with conn := w }
  | errConsume (s : SubSys) (err : WSError) (w : WsConn) :
      s.errTask = TaskSt.idle →
      errorNext s.conn = (NextRes.yield err, w) →
      Step C s { s with conn := w }
  | errDone (s : SubSys) (w : WsConn) :
      s.errTask = TaskSt.idle →
      errorNext s.conn = (NextRes.done, w) →
      Step C s { s with conn := w, errTask := TaskSt.done }
  | errWait (s : SubSys) (w : WsConn) :
      s.errTask = TaskSt.idle →
      errorNext s.conn = (NextRes.pending, w) →
      Step C s { s with conn := w, errTask := TaskSt.waiting }
  | errDeliver (s : SubSys) (err : WSError) (w : WsConn) :
      s.conn.readyState = ReadyState.OPEN →
      s.errTask = TaskSt.waiting →
      onErrorMessage s.conn err = (w, some err) →
      Step C s { s with conn := w, errTask := TaskSt.idle }
  | errEnqueue (s : SubSys) (err : WSError) (w : WsConn) :
      s.conn.readyState = ReadyState.OPEN →
      onErrorMessage s.conn err = (w, none) →
      Step C s { s with conn := w }
  | sockOpen (s : SubSys) :
      s.conn.readyState = ReadyState.CONNECTING →
      Step C s { s with conn := wsOnOpen s.conn }
  | sockClosed (s : SubSys) :
      s.conn.readyState ≠ ReadyState.CLOSED →
      Step C s (sockClosedSys s)
  | driverUnsub (s : SubSys) :
      Step C s (unsubscribeSys C s)


theorem rlookup_nil {β : Type} (k : String) : rlookup ([] : Rmap β) k = none := rfl

theorem rlookup_cons {β : Type} (p : String × β) (rest : Rmap β) (k : String) :
    rlookup (p :: rest) k = if p.1 = k then some p.2 else rlookup rest k := by
  by_cases h : p.1 = k <;> simp [rlookup, List.find?, h]

theorem rerase_cons {β : Type} (p : String × β) (rest : Rmap β) (k : String) :
    rerase (p :: rest) k = if p.1 = k then rerase rest k else p :: rerase rest k := by
  by_cases h : p.1 = k <;> simp [rerase, List.filter_cons, h]

theorem rlookup_rinsert_self {β : Type} (m : Rmap β) (k : String) (v : β) :
    rlookup (rinsert m k v) k = some v := by
  induction m with
  | nil => simp [rinsert, rlookup_cons, rlookup_nil]
  | cons p rest ih =>
      by_cases h : p.1 = k
      · simp [rinsert, h, rlookup_cons]
      · simpa [rinsert, h, rlookup_cons] using ih

theorem rlookup_rinsert_ne {β : Type} (m : Rmap β) (k k' : String) (v : β) (hk : k' ≠ k) :
    rlookup (rinsert m k v) k' = rlookup m k' := by
  induction m with
  | nil => simp [rinsert, rlookup_cons, rlookup_nil, Ne.symm hk]
  | cons p rest ih =>
      by_cases h : p.1 = k
      · simp [rinsert, h, rlookup_cons, Ne.symm hk, h ▸ (Ne.symm hk)]
      · simp [rinsert, h, rlookup_cons, ih]

theorem rlookup_rerase_self {β : Type} (m : Rmap β) (k : String) :
    rlookup (rerase m k) k = none := by
  induction m with
  | nil => simp [rerase, rlookup_nil]
  | cons p rest ih =>
      by_cases h : p.1 = k
      · simpa [rerase_cons, h] using ih
      · simpa [rerase_cons, h, rlookup_cons] using ih

theorem rlookup_rerase_ne {β : Type} (m : Rmap β) (k k' : String) (hk : k' ≠ k) :
    rlookup (rerase m k) k' = rlookup m k' := by
  induction m with
  | nil => simp [rerase]
  | cons p rest ih =>
      by_cases h : p.1 = k
      · have hzz : ¬ p.1 = k' := by rw [h]; exact Ne.symm hk
        simp [rerase_cons, h, rlookup_cons, hzz, ih, Ne.symm hk]
      · simp [rerase_cons, h, rlookup_cons, ih]

theorem rinsert_keys {β : Type} (m : Rmap β) (k : String) (v : β) :
    (rinsert m k v).map Prod.fst =
      if k ∈ m.map Prod.fst then m.map Prod.fst else m.map Prod.fst ++ [k] := by
  induction m with
  | nil => simp [rinsert]
  | cons p rest ih =>
      by_cases h : p.1 = k
      · simp [rinsert, h]
      · simp only [rinsert, if_neg h, List.map_cons, ih, List.mem_cons]
        by_cases hm : k ∈ rest.map Prod.fst
        · simp [hm, Ne.symm h]
        · simp [hm, Ne.symm h]

theorem rinsert_keys_nodup {β : Type} (m : Rmap β) (k : String) (v : β)
    (h : (m.map Prod.fst).Nodup) : ((rinsert m k v).map Prod.fst).Nodup := by
  rw [rinsert_keys]
  by_cases hm : k ∈ m.map Prod.fst
  · simpa [hm] using h
  · rw [if_neg hm]
    refine List.Nodup.append h (List.nodup_singleton k) ?dd
    intro a ha hb
    simp at hb
    exact hm (hb ▸ ha)

theorem rerase_keys_nodup {β : Type} (m : Rmap β) (k : String)
    (h : (m.map Prod.fst).Nodup) : ((rerase m k).map Prod.fst).Nodup := by
  have hsub : List.Sublist ((rerase m k).map Prod.fst) (m.map Prod.fst) :=
    List.Sublist.map Prod.fst (List.filter_sublist m)
  exact h.sublist hsub

theorem rinsert_self_of_lookup {β : Type} (m : Rmap β) (k : String) (v : β)
    (h : rlookup m k = some v) : rinsert m k v = m := by
  induction m with
  | nil => simp [rlookup_nil] at h
  | cons p rest ih =>
      obtain ⟨pk, pv⟩ := p
      by_cases hp : pk = k
      · simp [rlookup_cons, hp] at h
        simp [rinsert, hp, h]
      · simp [rlookup_cons, hp] at h
        simp [rinsert, hp, ih h]

theorem mem_setById {l : List CallEvent} {e x : CallEvent} (h : x ∈ setById l e) :
    x ∈ l ∨ x = e := by
  induction l with
  | nil => simpa [setById] using h
  | cons y rest ih =>
      by_cases hy : y.id = e.id
      · simp [setById, hy] at h
        rcases h with h | h
        · exact Or.inr h
        · exact Or.inl (List.mem_cons_of_mem y h)
      · simp [setById, hy] at h
        rcases h with h | h
        · exact Or.inl (h ▸ List.mem_cons_self y rest)
        · rcases ih h with h' | h'
          · exact Or.inl (List.mem_cons_of_mem y h')
          · exact Or.inr h'

theorem self_mem_ids_setById (l : List CallEvent) (e : CallEvent) :
    e.id ∈ (setById l e).map CallEvent.id := by
  induction l with
  | nil => simp [setById]
  | cons y rest ih =>
      by_cases hy : y.id = e.id
      · simp [setById, hy]
      · simp [setById, hy]
        simpa using Or.inr (by simpa using ih)

theorem ids_setById_sub {l : List CallEvent} {e : CallEvent} {j : String}
    (h : j ∈ (setById l e).map CallEvent.id) : j ∈ l.map CallEvent.id ∨ j = e.id := by
  simp at h
  rcases h with ⟨x, hx, rfl⟩
  rcases mem_setById hx with h' | h'
  · exact Or.inl (List.mem_map_of_mem CallEvent.id h')
  · exact Or.inr (by rw [h'])

theorem ids_sub_setById {l : List CallEvent} {e : CallEvent} {j : String}
    (h : j ∈ l.map CallEvent.id) : j ∈ (setById l e).map CallEvent.id := by
  induction l with
  | nil => simp at h
  | cons y rest ih =>
      rw [List.map_cons] at h
      by_cases hy : y.id = e.id
      · have hs : setById (y :: rest) e = e :: rest := by simp [setById, hy]
        rw [hs, List.map_cons]
        rcases List.mem_cons.1 h with h | h
        · exact List.mem_cons.2 (Or.inl (h.trans hy))
        · exact List.mem_cons.2 (Or.inr h)
      · have hs : setById (y :: rest) e = y :: setById rest e := by simp [setById, hy]
        rw [hs, List.map_cons]
        rcases List.mem_cons.1 h with h | h
        · exact List.mem_cons.2 (Or.inl h)
        · exact List.mem_cons.2 (Or.inr (ih h))

theorem nodupIds_setById {l : List CallEvent} (e : CallEvent) (h : NodupIds l) :
    NodupIds (setById l e) := by
  induction l with
  | nil => simp [setById, NodupIds]
  | cons y rest ih =>
      have h1 : y.id ∉ rest.map CallEvent.id :=
        (List.nodup_cons.1 (by simpa [NodupIds] using h)).1
      have h2 : NodupIds rest := (List.nodup_cons.1 (by simpa [NodupIds] using h)).2
      by_cases hy : y.id = e.id
      · have hs : setById (y :: rest) e = e :: rest := by simp [setById, hy]
        rw [NodupIds, hs, List.map_cons, List.nodup_cons]
        exact ⟨hy ▸ h1, h2⟩
      · have hs : setById (y :: rest) e = y :: setById rest e := by simp [setById, hy]
        rw [NodupIds, hs, List.map_cons, List.nodup_cons]
        refine ⟨?nin, ih h2⟩
        intro hmem
        rcases ids_setById_sub hmem with h' | h'
        · exact h1 h'
        · exact hy h'

theorem setById_of_not_mem {l : List CallEvent} {e : CallEvent}
    (h : e.id ∉ l.map CallEvent.id) : setById l e = l ++ [e] := by
  induction l with
  | nil => simp [setById]
  | cons y rest ih =>
      rw [List.map_cons] at h
      have h1 : ¬ e.id = y.id := fun hh => h (List.mem_cons.2 (Or.inl hh))
      have h2 : e.id ∉ rest.map CallEvent.id := fun hh => h (List.mem_cons.2 (Or.inr hh))
      have hy : ¬ y.id = e.id := fun hh => h1 hh.symm
      simp [setById, hy, ih h2]

theorem findById_setById (l : List CallEvent) (e : CallEvent) (i : String) :
    findById (setById l e) i = if e.id = i then some e else findById l i := by
  induction l with
  | nil =>
      by_cases h : e.id = i <;> simp [setById, findById, List.find?, h]
  | cons y rest ih =>
      by_cases hy : y.id = e.id
      · by_cases h : e.id = i
        · simp [setById, hy, findById, List.find?, h]
        · have hyi : ¬ y.id = i := by rw [hy]; exact h
          simp [setById, hy, findById, List.find?, h, hyi]
      · by_cases hyi : y.id = i
        · have h : ¬ e.id = i := fun hh => hy (by rw [hyi, hh])
          simp [setById, hy, findById, List.find?, h, hyi, Ne.symm h]
        · simp only [setById, if_neg hy]
          by_cases h : e.id = i
          · simpa [findById, List.find?, h, hyi] using (by simpa [findById, h] using ih)
          · simpa [findById, List.find?, h, hyi] using (by simpa [findById, h] using ih)

theorem setById_self {l : List CallEvent} {e : CallEvent}
    (h : findById l e.id = some e) : setById l e = l := by
  induction l with
  | nil => simp [findById] at h
  | cons y rest ih =>
      by_cases hy : y.id = e.id
      · simp [findById, List.find?, hy] at h
        simp [setById, hy, h]
      · simp [findById, List.find?, hy] at h
        simp [setById, hy, ih h]

theorem nodupIds_foldl_setById (es : List CallEvent) (acc : List CallEvent)
    (h : NodupIds acc) : NodupIds (es.foldl setById acc) := by
  induction es generalizing acc with
  | nil => simpa using h
  | cons e rest ih => exact ih (setById acc e) (nodupIds_setById e h)

theorem nodupIds_mapFromEvents (es : List CallEvent) : NodupIds (mapFromEvents es) :=
  nodupIds_foldl_setById es [] (by simp [NodupIds])

theorem foldl_setById_of_nodup (l acc : List CallEvent)
    (h : NodupIds (acc ++ l)) : l.foldl setById acc = acc ++ l := by
  induction l generalizing acc with
  | nil => simp
  | cons e rest ih =>
      have hnotin : e.id ∉ acc.map CallEvent.id := by
        intro hmem
        have hnd : ((acc ++ e :: rest).map CallEvent.id).Nodup := h
        rw [List.map_append, List.nodup_append, List.map_cons] at hnd
        exact hnd.2.2 hmem (List.mem_cons_self e.id _)
      have hset : setById acc e = acc ++ [e] := setById_of_not_mem hnotin
      have hrest : NodupIds ((acc ++ [e]) ++ rest) := by
        simpa [NodupIds, List.append_assoc] using h
      calc (e :: rest).foldl setById acc = rest.foldl setById (setById acc e) := rfl
        _ = rest.foldl setById (acc ++ [e]) := by rw [hset]
        _ = (acc ++ [e]) ++ rest := ih (acc ++ [e]) hrest
        _ = acc ++ e :: rest := by simp

theorem mapFromEvents_eq_self {l : List CallEvent} (h : NodupIds l) :
    mapFromEvents l = l := by
  simpa [mapFromEvents] using foldl_setById_of_nodup l [] (by simpa using h)

theorem mem_foldl_setById {es acc : List CallEvent} {x : CallEvent}
    (h : x ∈ es.foldl setById acc) : x ∈ acc ∨ x ∈ es := by
  induction es generalizing acc with
  | nil => exact Or.inl (by simpa using h)
  | cons e rest ih =>
      rcases @ih (setById acc e) h with h' | h'
      · rcases mem_setById h' with h2 | h2
        · exact Or.inl h2
        · exact Or.inr (h2 ▸ List.mem_cons_self e rest)
      · exact Or.inr (List.mem_cons_of_mem e h')

theorem mem_mapFromEvents {es : List CallEvent} {x : CallEvent}
    (h : x ∈ mapFromEvents es) : x ∈ es := by
  rcases mem_foldl_setById h with h' | h'
  · simp at h'
  · exact h'

theorem sortByTs_sorted (l : List CallEvent) : List.Sorted tsLe (sortByTs l) :=
  List.sorted_insertionSort tsLe l

theorem sortByTs_perm (l : List CallEvent) : (sortByTs l).Perm l :=
  List.perm_insertionSort tsLe l

theorem sortByTs_eq_of_sorted {l : List CallEvent} (h : List.Sorted tsLe l) :
    sortByTs l = l :=
  List.Sorted.insertionSort_eq h

theorem nodupIds_of_perm {l l' : List CallEvent} (hp : l.Perm l') (h : NodupIds l) :
    NodupIds l' :=
  ((hp.map CallEvent.id).nodup_iff).1 h

theorem findById_eq_some_iff {l : List CallEvent} {i : String} {x : CallEvent}
    (h : NodupIds l) : findById l i = some x ↔ x ∈ l ∧ x.id = i := by
  constructor
  · intro hf
    refine ⟨List.mem_of_find?_eq_some hf, ?prop⟩
    have := List.find?_some hf
    simpa using this
  · rintro ⟨hmem, hid⟩
    induction l with
    | nil => simp at hmem
    | cons y rest ih =>
        have h1 : y.id ∉ rest.map CallEvent.id :=
          (List.nodup_cons.1 (by simpa [NodupIds] using h)).1
        have h2 : NodupIds rest := (List.nodup_cons.1 (by simpa [NodupIds] using h)).2
        rcases List.mem_cons.1 hmem with rfl | hmem'
        · simp [findById, List.find?, hid]
        · have hyne : ¬ y.id = i := by
            intro hyi
            exact h1 (hyi ▸ hid ▸ List.mem_map_of_mem CallEvent.id hmem')
          simpa [findById, List.find?, hyne] using ih h2 hmem'

theorem findById_perm {l l' : List CallEvent} (hp : l.Perm l') (h : NodupIds l)
    (i : String) : findById l i = findById l' i := by
  have h' : NodupIds l' := nodupIds_of_perm hp h
  cases hf : findById l i with
  | some x =>
      have hx := (findById_eq_some_iff h).1 hf
      exact ((findById_eq_some_iff h').2 ⟨hp.mem_iff.1 hx.1, hx.2⟩).symm
  | none =>
      cases hf' : findById l' i with
      | none => rfl
      | some y =>
          have hy := (findById_eq_some_iff h').1 hf'
          have : findById l i = some y :=
            (findById_eq_some_iff h).2 ⟨hp.mem_iff.2 hy.1, hy.2⟩
          rw [hf] at this
          exact absurd this (by simp)

theorem nodupIds_insertEvent (l : List CallEvent) (e : CallEvent) :
    NodupIds (insertEvent l e) :=
  nodupIds_of_perm (sortByTs_perm _).symm
    (nodupIds_setById e (nodupIds_mapFromEvents l))

theorem sorted_insertEvent (l : List CallEvent) (e : CallEvent) :
    List.Sorted tsLe (insertEvent l e) :=
  sortByTs_sorted _

theorem findById_insertEvent (l : List CallEvent) (e : CallEvent) (i : String) :
    findById (insertEvent l e) i =
      if e.id = i then some e else findById (mapFromEvents l) i := by
  have hnd : NodupIds (setById (mapFromEvents l) e) :=
    nodupIds_setById e (nodupIds_mapFromEvents l)
  rw [insertEvent, findById_perm (sortByTs_perm _) (nodupIds_of_perm (sortByTs_perm _).symm hnd) i]
  exact findById_setById _ e i

theorem findById_insertEvent_of_nodup {l : List CallEvent} (e : CallEvent) (i : String)
    (h : NodupIds l) :
    findById (insertEvent l e) i = if e.id = i then some e else findById l i := by
  rw [findById_insertEvent, mapFromEvents_eq_self h]

theorem mem_insertEvent {l : List CallEvent} {e x : CallEvent}
    (h : x ∈ insertEvent l e) : x ∈ l ∨ x = e := by
  have h1 : x ∈ setById (mapFromEvents l) e := (sortByTs_perm _).subset h
  rcases mem_setById h1 with h2 | h2
  · exact Or.inl (mem_mapFromEvents h2)
  · exact Or.inr h2

theorem insertEvent_idem (l : List CallEvent) (e : CallEvent) :
    insertEvent (insertEvent l e) e = insertEvent l e := by
  have hnd : NodupIds (insertEvent l e) := nodupIds_insertEvent l e
  have hfind : findById (insertEvent l e) e.id = some e := by
    rw [findById_insertEvent]
    simp
  rw [insertEvent, mapFromEvents_eq_self hnd, setById_self hfind,
    sortByTs_eq_of_sorted (sorted_insertEvent l e)]

theorem getCallEvents_addEvent_self (st : CallStore) (e : CallEvent) :
    getCallEvents (addEvent st e) e.call_id = insertEvent (getCallEvents st e.call_id) e := by
  simp [getCallEvents, addEvent, rlookup_rinsert_self]

theorem getCallEvents_addEvent_ne (st : CallStore) (e : CallEvent) (D : String)
    (h : D ≠ e.call_id) : getCallEvents (addEvent st e) D = getCallEvents st D := by
  simp [getCallEvents, addEvent, rlookup_rinsert_ne _ _ _ _ h]

theorem getCallEvents_foldl_addEvent (es : List CallEvent) (st : CallStore) (C : String)
    (h : ∀ e ∈ es, e.call_id = C) :
    getCallEvents (es.foldl addEvent st) C = es.foldl insertEvent (getCallEvents st C) := by
  induction es generalizing st with
  | nil => rfl
  | cons e rest ih =>
      have hc : e.call_id = C := h e (List.mem_cons_self e rest)
      rw [List.foldl_cons, List.foldl_cons,
        ih (addEvent st e) (fun x hx => h x (List.mem_cons_of_mem e hx))]
      congr 1
      rw [← hc]
      exact getCallEvents_addEvent_self st e

theorem foldl_insertEvent_invariant (es L : List CallEvent)
    (hs : List.Sorted tsLe L) (hn : NodupIds L) :
    List.Sorted tsLe (es.foldl insertEvent L) ∧ NodupIds (es.foldl insertEvent L) := by
  induction es generalizing L with
  | nil => exact ⟨hs, hn⟩
  | cons e rest ih => exact ih (insertEvent L e) (sorted_insertEvent L e) (nodupIds_insertEvent L e)

theorem findById_foldl_insertEvent (es : List CallEvent) (L : List CallEvent) (i : String)
    (h : NodupIds L) :
    findById (es.foldl insertEvent L) i =
      match es.reverse.find? (fun e => e.id = i) with
      | some x => some x
      | none => findById L i := by
  induction es generalizing L with
  | nil => simp
  | cons e rest ih =>
      rw [List.foldl_cons, ih (insertEvent L e) (nodupIds_insertEvent L e),
        List.reverse_cons, List.find?_append]
      cases hr : rest.reverse.find? (fun e => decide (e.id = i)) with
      | some x => simp [hr, Option.or]
      | none =>
          simp only [hr, Option.none_or]
          rw [findById_insertEvent_of_nodup e i h]
          by_cases he : e.id = i
          · simp [List.find?, he]
          · simp [List.find?, he]

theorem addEvent_idem (st : CallStore) (e : CallEvent) :
    addEvent (addEvent st e) e = addEvent st e := by
  have hlk : rlookup (addEvent st e).events e.call_id
      = some (insertEvent ((rlookup st.events e.call_id).getD []) e) := by
    simp [addEvent, rlookup_rinsert_self]
  show { addEvent st e with
      events := rinsert (addEvent st e).events e.call_id
        (insertEvent ((rlookup (addEvent st e).events e.call_id).getD []) e) }
    = addEvent st e
  rw [hlk, Option.getD_some, insertEvent_idem, rinsert_self_of_lookup _ _ _ hlk]

/-- C1: every finite sequence of `addEvent` calls whose events share a
call id produces a per-call list that is sorted ascending by timestamp and
free of duplicate event ids, whatever the call order; `addEvent` is
idempotent, and the stored event for each id is the last one written with
that id (last write wins, id is the de-duplication key). -/
theorem addEvent_sorted_nodup_lastwrite_idem (C : String) (es : List CallEvent)
    (h : ∀ e ∈ es, e.call_id = C) :
    List.Sorted tsLe (getCallEvents (es.foldl addEvent initialStore) C)
    ∧ NodupIds (getCallEvents (es.foldl addEvent initialStore) C)
    ∧ (∀ i, findById (getCallEvents (es.foldl addEvent initialStore) C) i
        = es.reverse.find? (fun e => e.id = i))
    ∧ (∀ (st : CallStore) (e : CallEvent), addEvent (addEvent st e) e = addEvent st e) := by
  have hbridge := getCallEvents_foldl_addEvent es initialStore C h
  have hbase : getCallEvents initialStore C = [] := rfl
  rw [hbridge, hbase]
  have hinv := foldl_insertEvent_invariant es [] (by simp) (by simp [NodupIds])
  refine ⟨hinv.1, hinv.2, ?lw, fun st e => addEvent_idem st e⟩
  intro i
  rw [findById_foldl_insertEvent es [] i (by simp [NodupIds])]
  cases hr : es.reverse.find? (fun e => e.id = i) <;> simp [hr, findById]

/-- Witness for C1 at a concrete input: two events arriving out of
timestamp order, the second a duplicate id with an updated payload. -/
theorem addEvent_sorted_nodup_lastwrite_idem_witness :
    (∀ e ∈ [⟨"e2", "c1", 2, some 2, some "r2", none, none, none, none, none, none, none⟩,
            ⟨"e1", "c1", 1, some 1, some "r1", none, none, none, none, none, none, none⟩,
            (⟨"e2", "c1", 2, some 2, some "r2b", none, none, none, none, none, none, none⟩
              : CallEvent)], e.call_id = "c1")
    ∧ List.Sorted tsLe (getCallEvents
        ([⟨"e2", "c1", 2, some 2, some "r2", none, none, none, none, none, none, none⟩,
          ⟨"e1", "c1", 1, some 1, some "r1", none, none, none, none, none, none, none⟩,
          (⟨"e2", "c1", 2, some 2, some "r2b", none, none, none, none, none, none, none⟩
            : CallEvent)].foldl addEvent initialStore) "c1") := by
  constructor
  · intro e he
    fin_cases he <;> rfl
  · exact (addEvent_sorted_nodup_lastwrite_idem "c1" _ (by intro e he; fin_cases he <;> rfl)).1

theorem ids_sub_foldl_setById (E acc : List CallEvent) (i : String)
    (h : i ∈ acc.map CallEvent.id) : i ∈ (E.foldl setById acc).map CallEvent.id := by
  induction E generalizing acc with
  | nil => simpa using h
  | cons e rest ih => exact ih (setById acc e) (ids_sub_setById h)

theorem ids_sub_mapFromEvents (L : List CallEvent) (i : String)
    (h : i ∈ L.map CallEvent.id) : i ∈ (mapFromEvents L).map CallEvent.id := by
  suffices hgen : ∀ (l acc : List CallEvent), i ∈ acc.map CallEvent.id ∨ i ∈ l.map CallEvent.id →
      i ∈ (l.foldl setById acc).map CallEvent.id by
    exact hgen L [] (Or.inr h)
  intro l
  induction l with
  | nil =>
      intro acc h'
      rcases h' with h' | h'
      · simpa using h'
      · simp at h'
  | cons e rest ih =>
      intro acc h'
      rw [List.foldl_cons]
      rcases h' with h' | h'
      · exact ih (setById acc e) (Or.inl (ids_sub_setById h'))
      · rw [List.map_cons] at h'
        rcases List.mem_cons.1 h' with h' | h'
        · exact ih (setById acc e) (Or.inl (h' ▸ self_mem_ids_setById acc e))
        · exact ih (setById acc e) (Or.inr h')

/-- C5: `setCallEvents(C, E)` merges on top of the existing list, so every
event id present in `C`'s list before the merge is still present after it
(monotonic growth; a late snapshot fetch never erases live events). -/
theorem setCallEvents_monotonic (st : CallStore) (C : String) (E : List CallEvent)
    (now : Int) (i : String)
    (h : i ∈ (getCallEvents st C).map CallEvent.id) :
    i ∈ (getCallEvents (setCallEvents st C E now) C).map CallEvent.id := by
  have hself : getCallEvents (setCallEvents st C E now) C
      = mergeEvents (getCallEvents st C) E := by
    simp [getCallEvents, setCallEvents, rlookup_rinsert_self]
  rw [hself, mergeEvents]
  have hmem : i ∈ ((E.foldl setById (mapFromEvents (getCallEvents st C))).map CallEvent.id) :=
    ids_sub_foldl_setById _ _ _ (ids_sub_mapFromEvents _ _ h)
  exact (((sortByTs_perm _).map CallEvent.id).mem_iff).2 hmem

/-- Witness for C5 at a concrete input: one live event already stored,
then a two-event snapshot merge; the live id survives. -/
theorem setCallEvents_monotonic_witness :
    ("live" ∈ (getCallEvents
        { initialStore with
          events := [("c1", [⟨"live", "c1", 5, some 1, some "r", none, none, none, none,
            none, none, none⟩])] } "c1").map CallEvent.id)
    ∧ ("live" ∈ (getCallEvents (setCallEvents
        { initialStore with
          events := [("c1", [⟨"live", "c1", 5, some 1, some "r", none, none, none, none,
            none, none, none⟩])] } "c1"
        [⟨"snap", "c1", 1, some 0, some "s", none, none, none, none, none, none, none⟩] 7)
        "c1").map CallEvent.id) :=
  ⟨by decide, setCallEvents_monotonic _ "c1" _ 7 "live" (by decide)⟩

/-- The whole-subsystem effect of `clearCall(C)`: call the stored
subscription handle's `close()` when one exists, then remove the five
per-call entries in one atomic state update. -/
def clearCallSys (C : String) (s : SubSys) : SubSys :=
  match rlookup s.store.subscriptions C with
  | some _ => { s with store := clearCall s.store C, conn := closeWs s.conn }
  | none => { s with store := clearCall s.store C }

/-- C8: `clearCall(C)` removes the call summary, call metadata, event
list, events metadata and subscription entry for `C` in one atomic state
update, leaves every other call id and the agent collections untouched,
closes the socket when a subscription handle was stored, and is safe when
nothing is stored for `C`. -/
theorem clearCall_spec (st : CallStore) (C D : String) (hD : D ≠ C) :
    rlookup (clearCall st C).calls C = none
    ∧ rlookup (clearCall st C).callsMeta C = none
    ∧ rlookup (clearCall st C).events C = none
    ∧ rlookup (clearCall st C).eventsMeta C = none
    ∧ rlookup (clearCall st C).subscriptions C = none
    ∧ rlookup (clearCall st C).calls D = rlookup st.calls D
    ∧ rlookup (clearCall st C).callsMeta D = rlookup st.callsMeta D
    ∧ rlookup (clearCall st C).events D = rlookup st.events D
    ∧ rlookup (clearCall st C).eventsMeta D = rlookup st.eventsMeta D
    ∧ rlookup (clearCall st C).subscriptions D = rlookup st.subscriptions D
    ∧ (clearCall st C).agents = st.agents
    ∧ (clearCall st C).agentsMeta = st.agentsMeta
    ∧ (∀ s : SubSys, (clearCallSys C s).store = clearCall s.store C)
    ∧ (∀ s : SubSys, (rlookup s.store.subscriptions C).isSome →
        (clearCallSys C s).conn = closeWs s.conn)
    ∧ (∀ s : SubSys, rlookup s.store.subscriptions C = none →
        (clearCallSys C s).conn = s.conn) := by
  refine ⟨rlookup_rerase_self _ _, rlookup_rerase_self _ _, rlookup_rerase_self _ _,
    rlookup_rerase_self _ _, rlookup_rerase_self _ _,
    rlookup_rerase_ne _ _ _ hD, rlookup_rerase_ne _ _ _ hD, rlookup_rerase_ne _ _ _ hD,
    rlookup_rerase_ne _ _ _ hD, rlookup_rerase_ne _ _ _ hD, rfl, rfl, ?store, ?close, ?noclose⟩
  · intro s
    cases hs : rlookup s.store.subscriptions C <;> simp [clearCallSys, hs]
  · intro s hs
    cases hx : rlookup s.store.subscriptions C with
    | none => rw [hx] at hs; simp at hs
    | some v => simp [clearCallSys, hx]
  · intro s hs
    simp [clearCallSys, hs]

/-- Witness for C8 at a concrete input: a store holding entries for `c1`
and `c2`; clearing `c1` removes exactly the `c1` entries. -/
theorem clearCall_spec_witness :
    ("c2" ≠ "c1")
    ∧ rlookup (clearCall
        { initialStore with
          calls := [("c1", ⟨"c1", "a", 0, CallStatus.running, 0, none, none, none, 0, 0, none⟩)]
          subscriptions := [("c1", ⟨"c1", 0⟩)] } "c1").calls "c1" = none :=
  ⟨by decide, (clearCall_spec _ "c1" "c2" (by decide)).1⟩

/-- C10: when the events loop of `C`'s subscription consumes a
StatusChange while no summary for `C` is cached, the body reduces to the
bare `addEvent`: the event lands in the call's event list, but `calls` and
`callsMeta` are untouched — no summary is synthesized and the carried
status is dropped. -/
theorem consumeBody_no_cached_summary (st : CallStore) (C : String) (now : Int)
    (e : CallEvent) (ns : CallStatus)
    (hsc : getEventType e = "status_change") (hns : e.new_status = some ns)
    (hcid : e.call_id = C)
    (h : rlookup st.calls C = none) :
    consumeBody st C now e = addEvent st e
    ∧ (consumeBody st C now e).calls = st.calls
    ∧ (consumeBody st C now e).callsMeta = st.callsMeta
    ∧ e ∈ getCallEvents (consumeBody st C now e) C := by
  have hcalls : (addEvent st e).calls = st.calls := rfl
  have h1 : consumeBody st C now e = addEvent st e := by
    unfold consumeBody
    rw [if_pos hsc, hns]
    have : rlookup (addEvent st e).calls C = none := by rw [hcalls]; exact h
    simp [this]
  refine ⟨h1, by rw [h1, hcalls], by rw [h1]; rfl, ?mem⟩
  rw [h1, ← hcid, getCallEvents_addEvent_self]
  have hfind : findById (insertEvent (getCallEvents st e.call_id) e) e.id = some e := by
    rw [findById_insertEvent]
    simp
  exact List.mem_of_find?_eq_some hfind

/-- Witness for C10 at a concrete input: a terminal StatusChange consumed
while the calls map is empty. -/
theorem consumeBody_no_cached_summary_witness :
    (getEventType ⟨"sc", "c1", 3, some 4, none, none, none, none, none, none,
        some CallStatus.running, some CallStatus.completed⟩ = "status_change")
    ∧ (consumeBody initialStore "c1" 9
        ⟨"sc", "c1", 3, some 4, none, none, none, none, none, none,
          some CallStatus.running, some CallStatus.completed⟩).calls = initialStore.calls :=
  ⟨by decide,
    (consumeBody_no_cached_summary initialStore "c1" 9 _ CallStatus.completed
      (by decide) rfl rfl rfl).2.1⟩

theorem subscribeToCall_cases (st : CallStore) (c : String) (hd : Nat) :
    subscribeToCall st c hd = st
    ∨ (subscribeToCall st c hd).subscriptions = rinsert st.subscriptions c ⟨c, hd⟩ := by
  unfold subscribeToCall
  by_cases h1 : (rlookup st.subscriptions c).isSome
  · exact Or.inl (by simp [h1])
  · cases h2 : rlookup st.calls c with
    | none => exact Or.inr (by simp [h1, h2])
    | some call =>
        by_cases h3 : isTerminalStatus call.status
        · exact Or.inl (by simp [h1, h2, h3])
        · exact Or.inr (by simp [h1, h2, h3])

theorem applyAct_subsKeys_nodup (st : CallStore) (a : Act)
    (h : (st.subscriptions.map Prod.fst).Nodup) :
    ((applyAct st a).subscriptions.map Prod.fst).Nodup := by
  cases a with
  | setAgents m now => exact h
  | setAgentError n e nf now => exact h
  | updateCall c now => exact h
  | setCallError c e nf now => exact h
  | setCallLoading c l now => exact h
  | addEvent e => exact h
  | setCallEvents c es now => exact h
  | setEventsError c e nf now => exact h
  | setEventsLoading c l now => exact h
  | subscribeToCall c hd =>
      rcases subscribeToCall_cases st c hd with heq | heq
      · show ((subscribeToCall st c hd).subscriptions.map Prod.fst).Nodup
        rw [heq]
        exact h
      · show ((subscribeToCall st c hd).subscriptions.map Prod.fst).Nodup
        rw [heq]
        exact rinsert_keys_nodup _ _ _ h
  | unsubscribeFromCall c =>
      show ((unsubscribeFromCall st c).subscriptions.map Prod.fst).Nodup
      unfold unsubscribeFromCall
      cases hx : rlookup st.subscriptions c with
      | some v => simpa using rerase_keys_nodup _ _ h
      | none => simpa using h
  | clearCall c =>
      show ((clearCall st c).subscriptions.map Prod.fst).Nodup
      exact rerase_keys_nodup _ _ h

theorem foldl_applyAct_subsKeys_nodup (acts : List Act) (st : CallStore)
    (h : (st.subscriptions.map Prod.fst).Nodup) :
    (((acts.foldl applyAct st).subscriptions).map Prod.fst).Nodup := by
  induction acts generalizing st with
  | nil => exact h
  | cons a rest ih => exact ih (applyAct st a) (applyAct_subsKeys_nodup st a h)

/-- C4: in every store state reachable from the initial store by store
actions, the subscription registry has each call id at most once; and
`subscribeToCall(C)` leaves the state unchanged both when a subscription
for `C` already exists and when the cached summary for `C` is terminal. -/
theorem subscriptions_unique_and_noop :
    (∀ acts : List Act,
      (((acts.foldl applyAct initialStore).subscriptions).map Prod.fst).Nodup)
    ∧ (∀ (acts : List Act) (C : String),
        (((acts.foldl applyAct initialStore).subscriptions).map Prod.fst).count C ≤ 1)
    ∧ (∀ (st : CallStore) (C : String) (hd : Nat) (sub : CallSubscription),
        rlookup st.subscriptions C = some sub → subscribeToCall st C hd = st)
    ∧ (∀ (st : CallStore) (C : String) (hd : Nat) (call : CallSummary),
        rlookup st.calls C = some call → isTerminalStatus call.status = true →
        subscribeToCall st C hd = st) := by
  refine ⟨?nodup, ?count, ?noopSub, ?noopTerm⟩
  · intro acts
    exact foldl_applyAct_subsKeys_nodup acts initialStore (by simp [initialStore])
  · intro acts C
    exact (List.nodup_iff_count_le_one.1
      (foldl_applyAct_subsKeys_nodup acts initialStore (by simp [initialStore]))) C
  · intro st C hd sub hsub
    unfold subscribeToCall
    simp [hsub]
  · intro st C hd call hcall hterm
    unfold subscribeToCall
    by_cases h1 : (rlookup st.subscriptions C).isSome
    · simp [h1]
    · simp [h1, hcall, hterm]

/-- Witness for C4 at concrete inputs: a store already subscribed to `c1`
and a store whose `c2` summary is `completed`; both subscribe calls are
no-ops. -/
theorem subscriptions_unique_and_noop_witness :
    (rlookup ({ initialStore with
        subscriptions := [("c1", ⟨"c1", 5⟩)] } : CallStore).subscriptions "c1"
      = some ⟨"c1", 5⟩)
    ∧ subscribeToCall { initialStore with subscriptions := [("c1", ⟨"c1", 5⟩)] } "c1" 9
        = { initialStore with subscriptions := [("c1", ⟨"c1", 5⟩)] }
    ∧ subscribeToCall
        { initialStore with
          calls := [("c2", ⟨"c2", "a", 0, CallStatus.completed, 0, none, none, none,
            0, 0, none⟩)] } "c2" 9
      = { initialStore with
          calls := [("c2", ⟨"c2", "a", 0, CallStatus.completed, 0, none, none, none,
            0, 0, none⟩)] } :=
  ⟨by decide,
    subscriptions_unique_and_noop.2.2.1 _ "c1" 9 ⟨"c1", 5⟩ (by decide),
    subscriptions_unique_and_noop.2.2.2 _ "c2" 9
      ⟨"c2", "a", 0, CallStatus.completed, 0, none, none, none, 0, 0, none⟩
      (by decide) (by decide)⟩

/-- One event-list operation: a live `addEvent` or a snapshot
`setCallEvents`. -/
inductive EvOp where
  | add (e : CallEvent)
  | setAll (callId : String) (events : List CallEvent) (now : Int)

/-- Apply one event-list operation to the store. -/
def applyEvOp (st : CallStore) : EvOp → CallStore
  | EvOp.add e => addEvent st e
  | EvOp.setAll c es now => setCallEvents st c es now

/-- The events carried by one operation. -/
def opEvents : EvOp → List CallEvent
  | EvOp.add e => [e]
  | EvOp.setAll _ es _ => es

/-- All events carried by a sequence of operations. -/
def allEvents (ops : List EvOp) : List CallEvent :=
  (ops.map opEvents).flatten

/-- The relation "sequence numbers non-decreasing" (an absent sequence
field reads as 0). -/
def seqLe (a b : CallEvent) : Prop := a.sequence.getD 0 ≤ b.sequence.getD 0

instance : DecidableRel seqLe := fun a b => Nat.decLe (a.sequence.getD 0) (b.sequence.getD 0)

theorem getCallEvents_setCallEvents_self (st : CallStore) (c : String)
    (es : List CallEvent) (now : Int) :
    getCallEvents (setCallEvents st c es now) c = mergeEvents (getCallEvents st c) es := by
  simp [getCallEvents, setCallEvents, rlookup_rinsert_self]

theorem getCallEvents_setCallEvents_ne (st : CallStore) (c : String)
    (es : List CallEvent) (now : Int) (D : String) (h : D ≠ c) :
    getCallEvents (setCallEvents st c es now) D = getCallEvents st D := by
  simp [getCallEvents, setCallEvents, rlookup_rinsert_ne _ _ _ _ h]

theorem mem_mergeEvents {L E : List CallEvent} {x : CallEvent}
    (h : x ∈ mergeEvents L E) : x ∈ L ∨ x ∈ E := by
  have h1 : x ∈ E.foldl setById (mapFromEvents L) := (sortByTs_perm _).subset h
  rcases mem_foldl_setById h1 with h' | h'
  · exact Or.inl (mem_mapFromEvents h')
  · exact Or.inr h'

theorem sorted_after_evop (st : CallStore) (op : EvOp)
    (h : ∀ D, List.Pairwise tsLe (getCallEvents st D)) :
    ∀ D, List.Pairwise tsLe (getCallEvents (applyEvOp st op) D) := by
  intro D
  cases op with
  | add e =>
      simp only [applyEvOp]
      by_cases hD : D = e.call_id
      · rw [hD, getCallEvents_addEvent_self]
        exact sortByTs_sorted _
      · rw [getCallEvents_addEvent_ne st e D hD]
        exact h D
  | setAll c es now =>
      simp only [applyEvOp]
      by_cases hD : D = c
      · rw [hD, getCallEvents_setCallEvents_self]
        exact sortByTs_sorted _
      · rw [getCallEvents_setCallEvents_ne st c es now D hD]
        exact h D

theorem mem_after_evops (ops : List EvOp) (st : CallStore) (Q : CallEvent → Prop)
    (hst : ∀ D x, x ∈ getCallEvents st D → Q x)
    (hops : ∀ x ∈ allEvents ops, Q x) :
    ∀ D x, x ∈ getCallEvents (ops.foldl applyEvOp st) D → Q x := by
  induction ops generalizing st with
  | nil => exact hst
  | cons op rest ih =>
      rw [List.foldl_cons]
      apply ih (applyEvOp st op)
      · intro D x hx
        cases op with
        | add e =>
            simp only [applyEvOp] at hx
            by_cases hD : D = e.call_id
            · rw [hD, getCallEvents_addEvent_self] at hx
              rcases mem_insertEvent hx with h' | h'
              · exact hst _ _ h'
              · exact hops x (by simp [allEvents, opEvents, h'])
            · rw [getCallEvents_addEvent_ne st e D hD] at hx
              exact hst _ _ hx
        | setAll c es now =>
            simp only [applyEvOp] at hx
            by_cases hD : D = c
            · rw [hD, getCallEvents_setCallEvents_self] at hx
              rcases mem_mergeEvents hx with h' | h'
              · exact hst _ _ h'
              · exact hops x (by simp [allEvents, opEvents]; exact Or.inl h')
            · rw [getCallEvents_setCallEvents_ne st c es now D hD] at hx
              exact hst _ _ hx
      · intro x hx
        apply hops
        simp [allEvents] at hx ⊢
        exact Or.inr hx

theorem foldl_applyEvOp_sorted (ops : List EvOp) (st : CallStore)
    (h : ∀ D, List.Pairwise tsLe (getCallEvents st D)) :
    ∀ D, List.Pairwise tsLe (getCallEvents (ops.foldl applyEvOp st) D) := by
  induction ops generalizing st with
  | nil => exact h
  | cons op rest ih => exact ih (applyEvOp st op) (sorted_after_evop st op h)

/-- C7 (amended): after any sequence of `addEvent` and `setCallEvents`
operations, each call's stored list has non-decreasing timestamps; the
sort comparator reads only timestamps, so the sequence numbers are
non-decreasing only under the extra assumption that the inserted events'
sequence numbers are ordered consistently with their timestamps. -/
theorem events_ts_sorted_seq_conditional (ops : List EvOp) (C : String) :
    List.Pairwise tsLe (getCallEvents (ops.foldl applyEvOp initialStore) C)
    ∧ ((∀ a ∈ allEvents ops, ∀ b ∈ allEvents ops,
          a.timestamp ≤ b.timestamp → a.sequence.getD 0 ≤ b.sequence.getD 0) →
        List.Pairwise seqLe (getCallEvents (ops.foldl applyEvOp initialStore) C)) := by
  have hsorted := foldl_applyEvOp_sorted ops initialStore
    (fun D => by rw [show getCallEvents initialStore D = [] from rfl]; exact List.Pairwise.nil)
  refine ⟨hsorted C, ?seq⟩
  intro hcoh
  have hmem := mem_after_evops ops initialStore (fun x => x ∈ allEvents ops)
    (fun D x hx => by rw [show getCallEvents initialStore D = [] from rfl] at hx; cases hx)
    (fun x hx => hx)
  exact (hsorted C).imp_of_mem (fun ha hb hr => hcoh _ (hmem C _ ha) _ (hmem C _ hb) hr)

/-- Witness for C7 (amended) at a concrete input. -/
theorem events_ts_sorted_seq_conditional_witness :
    List.Pairwise tsLe (getCallEvents
      ([EvOp.add ⟨"a", "c1", 10, some 1, some "r", none, none, none, none, none, none, none⟩,
        EvOp.add ⟨"b", "c1", 20, some 2, some "r", none, none, none, none, none, none, none⟩
       ].foldl applyEvOp initialStore) "c1")
    ∧ List.Pairwise seqLe (getCallEvents
      ([EvOp.add ⟨"a", "c1", 10, some 1, some "r", none, none, none, none, none, none, none⟩,
        EvOp.add ⟨"b", "c1", 20, some 2, some "r", none, none, none, none, none, none, none⟩
       ].foldl applyEvOp initialStore) "c1") :=
  ⟨(events_ts_sorted_seq_conditional _ "c1").1,
    (events_ts_sorted_seq_conditional _ "c1").2 (by decide)⟩

/-- Counterexample to C7 as stated: two events whose sequence numbers run
against their timestamps; after two `addEvent` calls the stored list is
timestamp-sorted `[seq 2, seq 1]`, so the sequence numbers are not
non-decreasing. -/
theorem events_seq_not_monotone_cex :
    ¬ List.Pairwise seqLe (getCallEvents
      ([EvOp.add ⟨"a", "c1", 10, some 1, some "r", none, none, none, none, none, none, none⟩,
        EvOp.add ⟨"b", "c1", 5, some 2, some "r", none, none, none, none, none, none, none⟩
       ].foldl applyEvOp initialStore) "c1") := by
  decide


theorem iterEvNext_closed (w : WsConn) (hcl : w.closedFlag = true) (n : Nat) :
    ((iterEvNext w n).1 = (match w.eventQueue.drop n with
      | e :: _ => NextRes.yield e
      | [] => NextRes.done))
    ∧ (iterEvNext w n).2.eventQueue = w.eventQueue.drop (n + 1)
    ∧ (iterEvNext w n).2.closedFlag = true := by
  induction n with
  | zero =>
      cases hq : w.eventQueue with
      | nil => simp [iterEvNext, eventNext, hq, hcl]
      | cons e rest => simp [iterEvNext, eventNext, hq, hcl]
  | succ n ih =>
      have hq2 : (iterEvNext w n).2.eventQueue = w.eventQueue.drop (n + 1) := ih.2.1
      have hc2 : (iterEvNext w n).2.closedFlag = true := ih.2.2
      have hdrop : ((iterEvNext w n).2.eventQueue).drop 1 = w.eventQueue.drop (n + 1 + 1) := by
        rw [hq2, List.drop_drop]
      cases hq : (iterEvNext w n).2.eventQueue with
      | nil =>
          have hnil : w.eventQueue.drop (n + 1) = [] := by rw [← hq2, hq]
          have hnil2 : w.eventQueue.drop (n + 1 + 1) = [] := by rw [← hdrop, hq]; rfl
          refine ⟨?_, ?_, ?_⟩
          · show (eventNext (iterEvNext w n).2).1 = _
            rw [hnil]
            simp [eventNext, hq, hc2]
          · show (eventNext (iterEvNext w n).2).2.eventQueue = _
            rw [hnil2]
            simp [eventNext, hq, hc2]
          · show (eventNext (iterEvNext w n).2).2.closedFlag = true
            simp [eventNext, hq, hc2]
      | cons e rest =>
          have hconsq : w.eventQueue.drop (n + 1) = e :: rest := by rw [← hq2, hq]
          have hrest : w.eventQueue.drop (n + 1 + 1) = rest := by rw [← hdrop, hq]; rfl
          refine ⟨?_, ?_, ?_⟩
          · show (eventNext (iterEvNext w n).2).1 = _
            rw [hconsq]
            simp [eventNext, hq]
          · show (eventNext (iterEvNext w n).2).2.eventQueue = _
            rw [hrest]
            simp [eventNext, hq]
          · show (eventNext (iterEvNext w n).2).2.closedFlag = true
            simp [eventNext, hq, hc2]

theorem iterErrNext_closed (w : WsConn) (hcl : w.closedFlag = true) (n : Nat) :
    ((iterErrNext w n).1 = (match w.errorQueue.drop n with
      | e :: _ => NextRes.yield e
      | [] => NextRes.done))
    ∧ (iterErrNext w n).2.errorQueue = w.errorQueue.drop (n + 1)
    ∧ (iterErrNext w n).2.closedFlag = true := by
  induction n with
  | zero =>
      cases hq : w.errorQueue with
      | nil => simp [iterErrNext, errorNext, hq, hcl]
      | cons e rest => simp [iterErrNext, errorNext, hq, hcl]
  | succ n ih =>
      have hq2 : (iterErrNext w n).2.errorQueue = w.errorQueue.drop (n + 1) := ih.2.1
      have hc2 : (iterErrNext w n).2.closedFlag = true := ih.2.2
      have hdrop : ((iterErrNext w n).2.errorQueue).drop 1 = w.errorQueue.drop (n + 1 + 1) := by
        rw [hq2, List.drop_drop]
      cases hq : (iterErrNext w n).2.errorQueue with
      | nil =>
          have hnil : w.errorQueue.drop (n + 1) = [] := by rw [← hq2, hq]
          have hnil2 : w.errorQueue.drop (n + 1 + 1) = [] := by rw [← hdrop, hq]; rfl
          refine ⟨?_, ?_, ?_⟩
          · show (errorNext (iterErrNext w n).2).1 = _
            rw [hnil]
            simp [errorNext, hq, hc2]
          · show (errorNext (iterErrNext w n).2).2.errorQueue = _
            rw [hnil2]
            simp [errorNext, hq, hc2]
          · show (errorNext (iterErrNext w n).2).2.closedFlag = true
            simp [errorNext, hq, hc2]
      | cons e rest =>
          have hconsq : w.errorQueue.drop (n + 1) = e :: rest := by rw [← hq2, hq]
          have hrest : w.errorQueue.drop (n + 1 + 1) = rest := by rw [← hdrop, hq]; rfl
          refine ⟨?_, ?_, ?_⟩
          · show (errorNext (iterErrNext w n).2).1 = _
            rw [hconsq]
            simp [errorNext, hq]
          · show (errorNext (iterErrNext w n).2).2.errorQueue = _
            rw [hrest]
            simp [errorNext, hq]
          · show (errorNext (iterErrNext w n).2).2.closedFlag = true
            simp [errorNext, hq, hc2]

/-- C6: when the socket closes, the already-buffered messages of each
queue are still delivered first, in order, and after them every `next()`
call returns the end-of-sequence signal forever; a consumer awaiting
`next()` at close time has its pending promise resolved with
end-of-sequence (its loop exits). -/
theorem socket_close_terminates_sequences (w : WsConn) (n : Nat) :
    ((iterEvNext (onClose w) n).1 = (match w.eventQueue.drop n with
      | e :: _ => NextRes.yield e
      | [] => NextRes.done))
    ∧ ((iterErrNext (onClose w) n).1 = (match w.errorQueue.drop n with
      | e :: _ => NextRes.yield e
      | [] => NextRes.done))
    ∧ (∀ (C : String) (s : SubSys), s.conn.readyState ≠ ReadyState.CLOSED →
        Step C s (sockClosedSys s)
        ∧ (s.evTask = TaskSt.waiting → (sockClosedSys s).evTask = TaskSt.done)
        ∧ (s.errTask = TaskSt.waiting → (sockClosedSys s).errTask = TaskSt.done)) := by
  refine ⟨(iterEvNext_closed (onClose w) rfl n).1, (iterErrNext_closed (onClose w) rfl n).1,
    ?sys⟩
  intro C s hs
  exact ⟨Step.sockClosed s hs,
    fun hw => by simp [sockClosedSys, resolveTask, hw],
    fun hw => by simp [sockClosedSys, resolveTask, hw]⟩

/-- Witness for C6 at a concrete input: one buffered event at close time,
delivered by the first poll, end-of-sequence from the second on; a
concrete waiting consumer is released. -/
theorem socket_close_terminates_sequences_witness :
    ((iterEvNext (onClose ⟨ReadyState.OPEN, false,
        [⟨"e1", "c1", 1, some 1, some "r", none, none, none, none, none, none, none⟩],
        [], 0, 1⟩) 0).1
      = NextRes.yield ⟨"e1", "c1", 1, some 1, some "r", none, none, none, none, none, none, none⟩)
    ∧ ((iterEvNext (onClose ⟨ReadyState.OPEN, false,
        [⟨"e1", "c1", 1, some 1, some "r", none, none, none, none, none, none, none⟩],
        [], 0, 1⟩) 1).1 = NextRes.done)
    ∧ ((ReadyState.OPEN : ReadyState) ≠ ReadyState.CLOSED)
    ∧ (sockClosedSys ⟨initialStore, ⟨ReadyState.OPEN, false, [], [], 0, 1⟩,
        TaskSt.idle, TaskSt.waiting⟩).errTask = TaskSt.done :=
  ⟨(socket_close_terminates_sequences _ 0).1,
    (socket_close_terminates_sequences _ 1).1,
    by decide,
    ((socket_close_terminates_sequences ⟨ReadyState.OPEN, false, [], [], 0, 1⟩ 0).2.2
      "c1" ⟨initialStore, ⟨ReadyState.OPEN, false, [], [], 0, 1⟩, TaskSt.idle, TaskSt.waiting⟩
      (by decide)).2.2 rfl⟩

/-- C9: `close()` checks `ws.readyState === WebSocket.OPEN`, so a `close()`
issued while the socket is still `CONNECTING` does not close it: the
socket can still fire `open` later and keep delivering messages to the
event sequence. -/
theorem close_while_connecting_noop (w : WsConn) (e : CallEvent)
    (hc : w.readyState = ReadyState.CONNECTING) :
    closeWs w = w
    ∧ (wsOnOpen (closeWs w)).readyState = ReadyState.OPEN
    ∧ (w.eventResolvers = 0 → w.eventQueue = [] → w.closedFlag = false →
        (eventNext ((onEventMessage (wsOnOpen (closeWs w)) e).1)).1 = NextRes.yield e) := by
  have h1 : closeWs w = w := by simp [closeWs, hc]
  refine ⟨h1, by simp [wsOnOpen], ?deliver⟩
  intro hr hq hcl
  rw [h1]
  simp [onEventMessage, hr, wsOnOpen, hq, eventNext, hcl]

/-- Witness for C9 at a concrete input. -/
theorem close_while_connecting_noop_witness :
    closeWs ⟨ReadyState.CONNECTING, false, [], [], 0, 0⟩
      = ⟨ReadyState.CONNECTING, false, [], [], 0, 0⟩
    ∧ (eventNext ((onEventMessage
        (wsOnOpen (closeWs ⟨ReadyState.CONNECTING, false, [], [], 0, 0⟩))
        ⟨"e1", "c1", 1, some 1, some "r", none, none, none, none, none, none, none⟩).1)).1
      = NextRes.yield ⟨"e1", "c1", 1, some 1, some "r", none, none, none, none, none, none, none⟩ :=
  ⟨(close_while_connecting_noop _
      ⟨"e1", "c1", 1, some 1, some "r", none, none, none, none, none, none, none⟩ rfl).1,
    (close_while_connecting_noop _ _ rfl).2.2 rfl rfl rfl⟩

/-- The socket has left the `OPEN` state by a `close()` call or a close
event (and cannot reach it again: only a `CONNECTING` socket can open). -/
def SockNotOpen (s : SubSys) : Prop :=
  s.conn.readyState = ReadyState.CLOSING ∨ s.conn.readyState = ReadyState.CLOSED

theorem closeWs_of_notOpen {w : WsConn} (h : w.readyState ≠ ReadyState.OPEN) :
    closeWs w = w := by
  simp [closeWs, h]

theorem consumeBody_subscriptions (st : CallStore) (C : String) (now : Int) (e : CallEvent) :
    (consumeBody st C now e).subscriptions = st.subscriptions := by
  unfold consumeBody
  by_cases h1 : getEventType e = "status_change"
  · rw [if_pos h1]
    cases e.new_status with
    | none => rfl
    | some ns =>
        cases rlookup (addEvent st e).calls C with
        | none => rfl
        | some cur => rfl
  · rw [if_neg h1]
    rfl

theorem unsubscribeFromCall_events (st : CallStore) (C : String) :
    (unsubscribeFromCall st C).events = st.events := by
  unfold unsubscribeFromCall
  cases rlookup st.subscriptions C with
  | none => rfl
  | some v => rfl

/-- After the socket has left `OPEN`, every step of the subsystem keeps it
away from `OPEN`, and changes the store only by the driver's unsubscribe
bookkeeping or by applying the head of the already-buffered event queue. -/
theorem step_after_close (C : String) (s s' : SubSys) (hno : SockNotOpen s)
    (hstep : Step C s s') :
    SockNotOpen s'
    ∧ ((s'.store = s.store ∧ s'.conn.eventQueue = s.conn.eventQueue)
      ∨ (s'.store = unsubscribeFromCall s.store C ∧ s'.conn.eventQueue = s.conn.eventQueue)
      ∨ (∃ e rest now, s.conn.eventQueue = e :: rest ∧ s'.conn.eventQueue = rest
          ∧ s'.store = consumeBody s.store C now e)) := by
  have hnotopen : s.conn.readyState ≠ ReadyState.OPEN := by
    rcases hno with h | h <;> simp [h]
  have hnotconn : s.conn.readyState ≠ ReadyState.CONNECTING := by
    rcases hno with h | h <;> simp [h]
  cases hstep with
  | evConsume e w now h1 h2 =>
      cases hq : s.conn.eventQueue with
      | nil =>
          by_cases hcl : s.conn.closedFlag <;> simp [eventNext, hq, hcl] at h2
      | cons e0 rest =>
          rw [eventNext, hq] at h2
          injection h2 with he hw
          injection he with he
          have hrs : w.readyState = s.conn.readyState := by rw [← hw]
          have hwq : w.eventQueue = rest := by rw [← hw]
          refine ⟨?_, Or.inr (Or.inr ⟨e0, rest, now, rfl, hwq, ?_⟩)⟩
          · rcases hno with h | h
            · exact Or.inl (hrs.trans h)
            · exact Or.inr (hrs.trans h)
          · show consumeBody s.store C now e = consumeBody s.store C now e0
            rw [he]
  | evDone w h1 h2 =>
      cases hq : s.conn.eventQueue with
      | nil =>
          by_cases hcl : s.conn.closedFlag
          · rw [eventNext, hq] at h2
            simp [hcl] at h2
            have hrs : w.readyState = s.conn.readyState := by rw [← h2]
            have hwq : w.eventQueue = [] := by rw [← h2]; exact hq
            refine ⟨?_, Or.inl ⟨rfl, hwq⟩⟩
            rcases hno with h | h
            · exact Or.inl (hrs.trans h)
            · exact Or.inr (hrs.trans h)
          · rw [eventNext, hq] at h2
            simp [hcl] at h2
      | cons e0 rest =>
          rw [eventNext, hq] at h2
          simp at h2
  | evWait w h1 h2 =>
      cases hq : s.conn.eventQueue with
      | nil =>
          by_cases hcl : s.conn.closedFlag
          · rw [eventNext, hq] at h2
            simp [hcl] at h2
          · rw [eventNext, hq] at h2
            simp [hcl] at h2
            have hrs : w.readyState = s.conn.readyState := by rw [← h2]
            have hwq : w.eventQueue = [] := by rw [← h2]
            refine ⟨?_, Or.inl ⟨rfl, hwq⟩⟩
            rcases hno with h | h
            · exact Or.inl (hrs.trans h)
            · exact Or.inr (hrs.trans h)
      | cons e0 rest =>
          rw [eventNext, hq] at h2
          simp at h2
  | evDeliver e w now hop h1 h2 => exact absurd hop hnotopen
  | evEnqueue e w hop h2 => exact absurd hop hnotopen
  | errConsume err w h1 h2 =>
      cases hq : s.conn.errorQueue with
      | nil =>
          by_cases hcl : s.conn.closedFlag <;> simp [errorNext, hq, hcl] at h2
      | cons e0 rest =>
          rw [errorNext, hq] at h2
          injection h2 with he hw
          have hrs : w.readyState = s.conn.readyState := by rw [← hw]
          have hwq : w.eventQueue = s.conn.eventQueue := by rw [← hw]
          refine ⟨?_, Or.inl ⟨rfl, hwq⟩⟩
          rcases hno with h | h
          · exact Or.inl (hrs.trans h)
          · exact Or.inr (hrs.trans h)
  | errDone w h1 h2 =>
      cases hq : s.conn.errorQueue with
      | nil =>
          by_cases hcl : s.conn.closedFlag
          · rw [errorNext, hq] at h2
            simp [hcl] at h2
            have hrs : w.readyState = s.conn.readyState := by rw [← h2]
            have hwq : w.eventQueue = s.conn.eventQueue := by rw [← h2]
            refine ⟨?_, Or.inl ⟨rfl, hwq⟩⟩
            rcases hno with h | h
            · exact Or.inl (hrs.trans h)
            · exact Or.inr (hrs.trans h)
          · rw [errorNext, hq] at h2
            simp [hcl] at h2
      | cons e0 rest =>
          rw [errorNext, hq] at h2
          simp at h2
  | errWait w h1 h2 =>
      cases hq : s.conn.errorQueue with
      | nil =>
          by_cases hcl : s.conn.closedFlag
          · rw [errorNext, hq] at h2
            simp [hcl] at h2
          · rw [errorNext, hq] at h2
            simp [hcl] at h2
            have hrs : w.readyState = s.conn.readyState := by rw [← h2]
            have hwq : w.eventQueue = s.conn.eventQueue := by rw [← h2]
            refine ⟨?_, Or.inl ⟨rfl, hwq⟩⟩
            rcases hno with h | h
            · exact Or.inl (hrs.trans h)
            · exact Or.inr (hrs.trans h)
      | cons e0 rest =>
          rw [errorNext, hq] at h2
          simp at h2
  | errDeliver err w hop h1 h2 => exact absurd hop hnotopen
  | errEnqueue err w hop h2 => exact absurd hop hnotopen
  | sockOpen hop => exact absurd hop hnotconn
  | sockClosed h => exact ⟨Or.inr rfl, Or.inl ⟨rfl, rfl⟩⟩
  | driverUnsub =>
      unfold unsubscribeSys
      cases hx : rlookup s.store.subscriptions C with
      | none => exact ⟨hno, Or.inl ⟨rfl, rfl⟩⟩
      | some v =>
          have hcw : closeWs s.conn = s.conn := closeWs_of_notOpen hnotopen
          have hrs : (closeWs s.conn).readyState = s.conn.readyState := by rw [hcw]
          have hwq : (closeWs s.conn).eventQueue = s.conn.eventQueue := by rw [hcw]
          refine ⟨?_, Or.inr (Or.inl ⟨rfl, hwq⟩)⟩
          rcases hno with h | h
          · exact Or.inl (hrs.trans h)
          · exact Or.inr (hrs.trans h)

theorem steps_closed_empty (C : String) (u u' : SubSys) (hno : SockNotOpen u)
    (hq : u.conn.eventQueue = [])
    (hsteps : Relation.ReflTransGen (Step C) u u') :
    SockNotOpen u' ∧ u'.conn.eventQueue = [] ∧ u'.store.events = u.store.events := by
  induction hsteps with
  | refl => exact ⟨hno, hq, rfl⟩
  | tail hab hbc ih =>
      obtain ⟨hno_b, hq_b, hev_b⟩ := ih
      obtain ⟨hno_c, hdisj⟩ := step_after_close C _ _ hno_b hbc
      rcases hdisj with ⟨hst, hqc⟩ | ⟨hst, hqc⟩ | ⟨e, rest, now, hcons, hqc, hst⟩
      · exact ⟨hno_c, by rw [hqc, hq_b], by rw [hst, hev_b]⟩
      · exact ⟨hno_c, by rw [hqc, hq_b],
          by rw [hst, unsubscribeFromCall_events, hev_b]⟩
      · rw [hq_b] at hcons
        cases hcons

theorem drain_after_close (C : String) :
    ∀ (L : List CallEvent) (s : SubSys), SockNotOpen s → s.evTask = TaskSt.idle →
      s.conn.eventQueue = L →
      ∃ t : SubSys, Relation.ReflTransGen (Step C) s t
        ∧ t.conn.eventQueue = []
        ∧ t.store = L.foldl (fun st e => consumeBody st C 0 e) s.store := by
  intro L
  induction L with
  | nil =>
      intro s hno hidle hq
      exact ⟨s, Relation.ReflTransGen.refl, hq, rfl⟩
  | cons e rest ih =>
      intro s hno hidle hq
      have hnext : eventNext s.conn = (NextRes.yield e, { s.conn with eventQueue := rest }) := by
        rw [eventNext, hq]
      have hstep :
          Step C s { s with
                     store := consumeBody s.store C 0 e,
                     conn := { s.conn with eventQueue := rest } } :=
        Step.evConsume s e { s.conn with eventQueue := rest } 0 hidle hnext
      obtain ⟨t, hsteps, hqt, hst⟩ :=
        ih { s with
             store := consumeBody s.store C 0 e,
             conn := { s.conn with eventQueue := rest } } hno hidle rfl
      refine ⟨t, Relation.ReflTransGen.head hstep hsteps, hqt, ?_⟩
      rw [hst]
      rfl

/-- C3: the `close()` handle is total and idempotent — a second call,
including on an already-closed socket, is a no-op (the `readyState` guard
makes it throw-free) — and once the socket has left `OPEN` no new message
can be delivered: every further step of this subscription's subsystem
either leaves the store untouched, is the driver's unsubscribe
bookkeeping, or applies a message already buffered before the close; those
already-buffered messages are still applied, in order. -/
theorem close_safe_and_stops_mutation :
    (∀ w : WsConn, closeWs (closeWs w) = closeWs w)
    ∧ (∀ w : WsConn, w.readyState = ReadyState.CLOSED → closeWs w = w)
    ∧ (∀ (C : String) (s s' : SubSys), SockNotOpen s → Step C s s' →
        SockNotOpen s'
        ∧ ((s'.store = s.store ∧ s'.conn.eventQueue = s.conn.eventQueue)
          ∨ (s'.store = unsubscribeFromCall s.store C ∧ s'.conn.eventQueue = s.conn.eventQueue)
          ∨ (∃ e rest now, s.conn.eventQueue = e :: rest ∧ s'.conn.eventQueue = rest
              ∧ s'.store = consumeBody s.store C now e)))
    ∧ (∀ (C : String) (s : SubSys), SockNotOpen s → s.evTask = TaskSt.idle →
        ∃ t : SubSys, Relation.ReflTransGen (Step C) s t
          ∧ t.conn.eventQueue = []
          ∧ t.store = s.conn.eventQueue.foldl (fun st e => consumeBody st C 0 e) s.store) := by
  refine ⟨?idem, ?cl, ?step, ?drain⟩
  · intro w
    by_cases h : w.readyState = ReadyState.OPEN
    · simp [closeWs, h]
    · simp [closeWs, h]
  · intro w h
    simp [closeWs, h]
  · exact step_after_close
  · intro C s hno hidle
    exact drain_after_close C s.conn.eventQueue s hno hidle rfl

/-- Witness for C3 at concrete inputs: double close on an open socket,
close on a closed socket, a driver unsubscribe after close, and a drain of
one buffered event. -/
theorem close_safe_and_stops_mutation_witness :
    closeWs (closeWs ⟨ReadyState.OPEN, false, [], [], 0, 0⟩)
      = closeWs ⟨ReadyState.OPEN, false, [], [], 0, 0⟩
    ∧ closeWs ⟨ReadyState.CLOSED, true, [], [], 0, 0⟩
      = ⟨ReadyState.CLOSED, true, [], [], 0, 0⟩
    ∧ SockNotOpen (unsubscribeSys "c1"
        ⟨initialStore, ⟨ReadyState.CLOSING, false, [], [], 0, 0⟩, TaskSt.idle, TaskSt.idle⟩)
    ∧ (∃ t : SubSys, Relation.ReflTransGen (Step "c1")
          ⟨initialStore, ⟨ReadyState.CLOSING, false,
            [⟨"e1", "c1", 1, some 1, some "r", none, none, none, none, none, none, none⟩],
            [], 0, 0⟩, TaskSt.idle, TaskSt.idle⟩ t
        ∧ t.conn.eventQueue = []
        ∧ t.store = [(⟨"e1", "c1", 1, some 1, some "r", none, none, none, none, none, none,
            none⟩ : CallEvent)].foldl (fun st e => consumeBody st "c1" 0 e) initialStore) :=
  ⟨close_safe_and_stops_mutation.1 _,
    close_safe_and_stops_mutation.2.1 _ rfl,
    (close_safe_and_stops_mutation.2.2.1 "c1" _ _ (Or.inl rfl) (Step.driverUnsub _)).1,
    close_safe_and_stops_mutation.2.2.2 "c1" _ (Or.inl rfl) rfl⟩

theorem consumeBody_status_update (st : CallStore) (C : String) (now : Int)
    (e : CallEvent) (t : CallStatus) (call : CallSummary)
    (hsc : getEventType e = "status_change") (hns : e.new_status = some t)
    (hcall : rlookup st.calls C = some call) (hid : call.id = C) :
    rlookup (consumeBody st C now e).calls C = some { call with status := t } := by
  have hlk : rlookup (addEvent st e).calls C = some call := hcall
  unfold consumeBody
  rw [if_pos hsc, hns]
  simp only [hlk]
  unfold updateCall
  show rlookup (rinsert (addEvent st e).calls ({ call with status := t } : CallSummary).id
    { call with status := t }) C = some { call with status := t }
  rw [show ({ call with status := t } : CallSummary).id = C from hid]
  exact rlookup_rinsert_self _ _ _

/-- C2 (amended): delivering a terminal StatusChange for `C` on a live
subscription (a) updates the cached summary's status to the new value, and
(b) the driver's effect re-run then closes the subscription: the handle is
removed from the registry and the socket leaves `OPEN`; but (c) events
buffered behind the StatusChange are still applied after that closure —
only once the socket is not open and the buffer is empty does the event
map stop changing. -/
theorem terminal_statuschange_updates_and_closes (C : String) (s : SubSys)
    (call : CallSummary) (sub : CallSubscription) (e : CallEvent) (t : CallStatus)
    (now : Int) (rest : List CallEvent)
    (hcall : rlookup s.store.calls C = some call) (hid : call.id = C)
    (hsub : rlookup s.store.subscriptions C = some sub)
    (hsc : getEventType e = "status_change") (hns : e.new_status = some t)
    (hterm : isTerminalStatus t = true)
    (hidle : s.evTask = TaskSt.idle)
    (hq : s.conn.eventQueue = e :: rest)
    (hopen : s.conn.readyState = ReadyState.OPEN) :
    Step C s { s with
               store := consumeBody s.store C now e,
               conn := { s.conn with eventQueue := rest } }
    ∧ rlookup (consumeBody s.store C now e).calls C = some { call with status := t }
    ∧ Step C { s with
               store := consumeBody s.store C now e,
               conn := { s.conn with eventQueue := rest } }
        (unsubscribeSys C { s with
          store := consumeBody s.store C now e,
          conn := { s.conn with eventQueue := rest } })
    ∧ rlookup (unsubscribeSys C { s with
        store := consumeBody s.store C now e,
        conn := { s.conn with eventQueue := rest } }).store.subscriptions C = none
    ∧ (unsubscribeSys C { s with
        store := consumeBody s.store C now e,
        conn := { s.conn with eventQueue := rest } }).conn.readyState = ReadyState.CLOSING
    ∧ (∀ u u' : SubSys, SockNotOpen u → u.conn.eventQueue = [] →
        Relation.ReflTransGen (Step C) u u' → u'.store.events = u.store.events) := by
  have hnext : eventNext s.conn = (NextRes.yield e, { s.conn with eventQueue := rest }) := by
    rw [eventNext, hq]
  have hsub1 : rlookup (consumeBody s.store C now e).subscriptions C = some sub := by
    rw [consumeBody_subscriptions]
    exact hsub
  refine ⟨Step.evConsume s e { s.conn with eventQueue := rest } now hidle hnext,
    consumeBody_status_update s.store C now e t call hsc hns hcall hid,
    Step.driverUnsub _, ?subnone, ?closing, ?frame⟩
  · show rlookup (unsubscribeSys C { s with
        store := consumeBody s.store C now e,
        conn := { s.conn with eventQueue := rest } }).store.subscriptions C = none
    unfold unsubscribeSys
    simp only [hsub1]
    unfold unsubscribeFromCall
    simp only [hsub1]
    exact rlookup_rerase_self _ _
  · show (unsubscribeSys C { s with
        store := consumeBody s.store C now e,
        conn := { s.conn with eventQueue := rest } }).conn.readyState = ReadyState.CLOSING
    unfold unsubscribeSys
    simp only [hsub1]
    show (closeWs { s.conn with eventQueue := rest }).readyState = ReadyState.CLOSING
    unfold closeWs
    simp [hopen]
  · intro u u' hno hque hsteps
    exact (steps_closed_empty C u u' hno hque hsteps).2.2

/-- Witness for C2 (amended) at a concrete input: a running call `c1`
with a live subscription receives a StatusChange to `completed`. -/
theorem terminal_statuschange_updates_and_closes_witness :
    rlookup (consumeBody
        { initialStore with
          calls := [("c1", ⟨"c1", "a", 0, CallStatus.running, 0, none, none, none, 0, 0, none⟩)],
          subscriptions := [("c1", ⟨"c1", 0⟩)] } "c1" 0
        ⟨"sc", "c1", 1, some 1, none, none, none, none, none, none,
          some CallStatus.running, some CallStatus.completed⟩).calls "c1"
      = some ⟨"c1", "a", 0, CallStatus.completed, 0, none, none, none, 0, 0, none⟩ :=
  (terminal_statuschange_updates_and_closes "c1"
    ⟨{ initialStore with
       calls := [("c1", ⟨"c1", "a", 0, CallStatus.running, 0, none, none, none, 0, 0, none⟩)],
       subscriptions := [("c1", ⟨"c1", 0⟩)] },
     ⟨ReadyState.OPEN, false,
       [⟨"sc", "c1", 1, some 1, none, none, none, none, none, none,
         some CallStatus.running, some CallStatus.completed⟩], [], 0, 0⟩,
     TaskSt.idle, TaskSt.idle⟩
    ⟨"c1", "a", 0, CallStatus.running, 0, none, none, none, 0, 0, none⟩
    ⟨"c1", 0⟩
    ⟨"sc", "c1", 1, some 1, none, none, none, none, none, none,
      some CallStatus.running, some CallStatus.completed⟩
    CallStatus.completed 0 []
    (by decide) rfl (by decide) (by decide) rfl (by decide) rfl rfl rfl).2.1

/-- The store of the C2 counterexample run: a running call `c1` with a
live subscription. -/
def cexStore : CallStore :=
  { initialStore with
    calls := [("c1", ⟨"c1", "a", 0, CallStatus.running, 0, none, none, none, 0, 0, none⟩)],
    subscriptions := [("c1", ⟨"c1", 0⟩)] }

/-- The terminal StatusChange of the C2 counterexample run. -/
def cexSC : CallEvent :=
  ⟨"sc", "c1", 1, some 1, none, none, none, none, none, none,
    some CallStatus.running, some CallStatus.completed⟩

/-- A Thought event buffered behind the StatusChange in the C2
counterexample run. -/
def cexTh : CallEvent :=
  ⟨"th", "c1", 2, some 2, some "r", none, none, none, none, none, none, none⟩

/-- Start state of the C2 counterexample run: both messages already
buffered. -/
def cexS0 : SubSys :=
  ⟨cexStore, ⟨ReadyState.OPEN, false, [cexSC, cexTh], [], 0, 0⟩, TaskSt.idle, TaskSt.idle⟩

/-- After the loop consumes the terminal StatusChange. -/
def cexS1 : SubSys :=
  { cexS0 with
    store := consumeBody cexS0.store "c1" 0 cexSC,
    conn := { cexS0.conn with eventQueue := [cexTh] } }

/-- After the driver's effect re-run closes the subscription. -/
def cexS2 : SubSys := unsubscribeSys "c1" cexS1

/-- After the loop consumes the still-buffered Thought event. -/
def cexS3 : SubSys :=
  { cexS2 with
    store := consumeBody cexS2.store "c1" 0 cexTh,
    conn := { cexS2.conn with eventQueue := [] } }

/-- Counterexample to C2 as stated: an execution in which a terminal
StatusChange is consumed and the subscription is closed (the handle is
gone and the socket is `CLOSING`), yet afterwards the still-buffered
Thought event is appended to `c1`'s event list — "no further events are
appended after that closure" fails. -/
theorem statuschange_buffered_append_after_close_cex :
    Step "c1" cexS0 cexS1
    ∧ Step "c1" cexS1 cexS2
    ∧ Step "c1" cexS2 cexS3
    ∧ rlookup cexS2.store.subscriptions "c1" = none
    ∧ cexS2.conn.readyState = ReadyState.CLOSING
    ∧ getCallEvents cexS3.store "c1" ≠ getCallEvents cexS2.store "c1" := by
  refine ⟨?_, ?_, ?_, ?_, ?_, ?_⟩
  · exact Step.evConsume cexS0 cexSC { cexS0.conn with eventQueue := [cexTh] } 0 rfl rfl
  · exact Step.driverUnsub cexS1
  · exact Step.evConsume cexS2 cexTh { cexS2.conn with eventQueue := [] } 0 (by decide)
      (by decide)
  · decide
  · decide
  · decide
